import Mathlib

/-
Verification development for the Brian2 notebook
"Example 2 (Smooth pursuit eye movements)" (src/example_2_eye_movements.ipynb).

The notebook builds a closed-loop spiking model:
  * an eye governed by five coupled ODEs, integrated with the forward
    Euler method (Brian2 method='euler', defaultclock.dt = 0.1 ms);
  * two motoneurons, leaky integrate-and-fire with dv/dt = -v/taum,
    threshold 'v>1', reset 'v=0', refractory 5 ms, method='exact';
  * N = 20 retinal units with a Gaussian drive
    I = gain*exp(-((x_object-x_eye-x_neuron)/width)**2), membrane equation
    dv/dt = (I-(1+gs)*v)/taum, threshold 'v>1', reset 'v=0', method='exact';
  * motosynapses : Synapses(motoneurons, eye, 'w : 1', on_pre='x0+=w'),
    connect() (all pairs), w = [-0.5, 0.5];
  * sensorimotor_synapses : Synapses(retina, motoneurons, 'w : 1 (constant)',
    on_pre='v+=w'), connect(j='int(x_neuron_pre > 0)'),
    w = '20*abs(x_neuron_pre)/N_pre'.

The shallow embedding below follows Brian2's documented per-step schedule:
within one time step dt the engine runs the state updaters of all groups
(in creation/name order: the eye group first, then motoneurons, then the
retina, so the retina's linked variables x_eye and x_object read the eye
values just produced by this step's Euler update), then evaluates
thresholds, then executes the event-driven synaptic pathways of the
spikes detected in this step, and finally applies resets: the default
schedule is ['start', 'groups', 'thresholds', 'synapses', 'resets',
'end'], with the 'synapses' slot before the 'resets' slot, so a synaptic
increment delivered to a neuron that itself fired in the same step is
overwritten by its reset 'v=0' and a firing step always ends at v = 0.
Two further documented pieces of Brian2 semantics matter for the claims
about refractoriness: the motoneuron equation carries no
"(unless refractory)" flag, so v keeps integrating during the refractory
window, and synaptic on_pre statements are executed unconditionally, also
while the target is refractory; the refractory condition only suppresses
the threshold test.

Quantities are modelled over the real numbers (the idealised dynamics the
floating-point program approximates); the static connectivity layer is
additionally mirrored over the rationals, where it is provably equal and
arithmetic facts can be settled case by case.
-/

/-- One millisecond, in seconds; all times below are in seconds. -/
noncomputable def ms : ℝ := 1/1000

/-- Brian2 default simulation time step: defaultclock.dt = 0.1 ms. -/
noncomputable def dt : ℝ := ms/10

/-- Source: alpha = (1/(50*ms))**2. -/
noncomputable def alpha : ℝ := (1/(50*ms))^2

/-- Source: beta = 1/(50*ms). -/
noncomputable def beta : ℝ := 1/(50*ms)

/-- Source: tau_muscle = 20*ms. -/
noncomputable def tauMuscle : ℝ := 20*ms

/-- Source: tau_object = 500*ms. -/
noncomputable def tauObject : ℝ := 500*ms

/-- Source: taum = 20*ms (shared by motoneurons and retina). -/
noncomputable def taum : ℝ := 20*ms

/-- Source: N = 20, the number of retinal units. -/
abbrev Nret : ℕ := 20

/-- Source: width = 2./N, the receptive-field width. -/
noncomputable def width : ℝ := 2/(Nret : ℝ)

/-- Source: gain = 4. -/
noncomputable def gain : ℝ := 4

/-- Retinotopic position of retinal unit k, rational mirror of the source
expression retina.x_neuron = '-1.0 + 2.0*i/(N-1)'. -/
def xNeuronQ (k : Fin Nret) : ℚ := -1 + 2*(k : ℕ)/((Nret : ℚ) - 1)

/-- Retinotopic position of retinal unit k as a real number, the source
expression '-1.0 + 2.0*i/(N-1)' used by the dynamics. -/
noncomputable def xNeuron (k : Fin Nret) : ℝ := -1 + 2*(k : ℕ)/((Nret : ℝ) - 1)

theorem xNeuron_eq_cast (k : Fin Nret) : xNeuron k = ((xNeuronQ k : ℚ) : ℝ) := by
  simp [xNeuron, xNeuronQ]

/-- Postsynaptic motoneuron of retinal unit k, the source connection rule
sensorimotor_synapses.connect(j = 'int(x_neuron_pre > 0)'). -/
def targetOf (k : Fin Nret) : Fin 2 := if 0 < xNeuronQ k then 1 else 0

/-- Sensorimotor weight of retinal unit k, rational mirror of the source
assignment sensorimotor_synapses.w = '20*abs(x_neuron_pre)/N_pre'
(N_pre = 20, the size of the presynaptic retina group). -/
def wSensorQ (k : Fin Nret) : ℚ := 20 * |xNeuronQ k| / (Nret : ℚ)

/-- Sensorimotor weight of retinal unit k as a real number, used by the
dynamics. -/
noncomputable def wSensor (k : Fin Nret) : ℝ := ((wSensorQ k : ℚ) : ℝ)

/-- One sensorimotor synapse: presynaptic retinal unit, postsynaptic
motoneuron, weight.  The weight field is '(constant)' in the source and
nothing after construction writes to it. -/
structure Synapse where
  src : Fin Nret
  tgt : Fin 2
  w : ℚ
  deriving DecidableEq

/-- The synapse set created by sensorimotor_synapses.connect(j =
'int(x_neuron_pre > 0)') followed by the weight assignment: the generator
form of connect with an explicit j expression creates exactly one synapse
per presynaptic unit. -/
def sensorimotorSynapses : List Synapse :=
  (List.finRange Nret).map (fun k => ⟨k, targetOf k, wSensorQ k⟩)

/-- Motosynapse weights: motosynapses.w = [-0.5, 0.5], indexed by the
presynaptic motoneuron (connect() on a 2-to-1 pair creates one synapse per
motoneuron, in index order). -/
noncomputable def wMoto (i : Fin 2) : ℝ := if i = 0 then -(1/2) else 1/2

/- ----------------------------------------------------------------- -/
/- The dynamical state and one simulation step.                       -/
/- ----------------------------------------------------------------- -/

/-- Continuous state of the eye group (eqs_eye): position x, velocity,
muscle equilibrium x0, object position x_object and the Ornstein-Uhlenbeck
latent variable noise. -/
structure EyeState where
  x : ℝ
  velocity : ℝ
  x0 : ℝ
  xObject : ℝ
  noise : ℝ

/-- State of one motoneuron: membrane potential v and the number of
remaining time steps in which the refractory condition suppresses the
threshold test. -/
structure MotoState where
  v : ℝ
  refrac : ℕ

/-- State of one retinal unit: membrane potential v and the synaptic
conductance gs declared in eqs_retina. -/
structure RetState where
  v : ℝ
  gs : ℝ

/-- Full state of the simulated network. -/
structure SimState where
  eye : EyeState
  moto : Fin 2 → MotoState
  ret : Fin Nret → RetState

/-- One forward Euler step of eqs_eye (method='euler'); xi is the
standard normal draw feeding the xi term of the noise equation in Brian2's
Euler-Maruyama treatment.  The x0 written here is only the continuous
relaxation part; the event-driven x0 += w increments are applied by the
synapses stage of simStep below. -/
noncomputable def eyeEuler (xi : ℝ) (e : EyeState) : EyeState where
  x := e.x + dt * e.velocity
  velocity := e.velocity + dt * (alpha * (e.x0 - e.x) - beta * e.velocity)
  x0 := e.x0 + dt * (-e.x0 / tauMuscle)
  xObject := e.xObject + dt * ((e.noise - e.xObject) / tauObject)
  noise := e.noise + dt * (-e.noise / tauObject) +
    Real.sqrt dt * xi / Real.sqrt tauObject

/-- The Gaussian retinal drive of eqs_retina:
I = gain*exp(-((x_object-x_eye-x_neuron)/width)**2). -/
noncomputable def driveI (xObj xEye xn : ℝ) : ℝ :=
  gain * Real.exp (-(((xObj - xEye - xn)/width)^2))

/-- Per-step decay factor of the exact (linear) state updater for
dv/dt = -v/taum over one time step dt. -/
noncomputable def decay : ℝ := Real.exp (-(dt/taum))

/-- Decay factor of the retinal membrane equation
dv/dt = (I-(1+gs)*v)/taum for a given gs, over one time step. -/
noncomputable def retDecay (gs : ℝ) : ℝ := Real.exp (-((1+gs) * dt / taum))

/-- Exact (method='exact') update of a retinal membrane potential over one
step, with the drive Ik and the conductance gs held constant during the
step: the closed-form solution of dv/dt = (Ik-(1+gs)*v)/taum. -/
noncomputable def retUpdate (Ik : ℝ) (r : RetState) : ℝ :=
  Ik/(1+r.gs) + (r.v - Ik/(1+r.gs)) * retDecay r.gs

/-- Number of further time steps in which a motoneuron that has just fired
has its threshold test suppressed: Brian2 compares integer time steps,
timestep(t - lastspike, dt) >= timestep(5 ms, dt) = 50, so the 49 steps
after the firing step are suppressed. -/
def refracSteps : ℕ := 49

/-- The motoneuron fires in the step taken from state s: its decayed
potential exceeds the threshold 'v>1' and it is not refractory. -/
def motoFires (s : MotoState) : Prop := 1 < decay * s.v ∧ s.refrac = 0

noncomputable instance (s : MotoState) : Decidable (motoFires s) := by
  unfold motoFires; infer_instance

/-- One full step of a motoneuron, given the summed sensorimotor input inc
delivered by the retinal spikes of this step: exact decay of
dv/dt = -v/taum, threshold 'v>1' (suppressed while refractory), then the
synaptic on_pre increments (the 'synapses' slot), then the reset 'v=0'
(the 'resets' slot).  Because resets run after synapses, a firing step
ends at exactly v = 0: the reset overwrites any same-step increment.  In
a non-firing step the on_pre increments are applied unconditionally, also
during refractoriness, and the decay also runs while refractory since the
equation has no "(unless refractory)" flag. -/
noncomputable def motoStep (inc : ℝ) (s : MotoState) : MotoState :=
  if 1 < decay * s.v ∧ s.refrac = 0 then ⟨0, refracSteps⟩
  else ⟨decay * s.v + inc, s.refrac - 1⟩

/-- The open-system trajectory of one motoneuron from its initial state
(v = 0, not refractory), driven by an arbitrary stream of summed
sensorimotor inputs; inc n is delivered in step n+1 (and discarded by the
reset if the motoneuron itself fires in that step). -/
noncomputable def motoRun (inc : ℕ → ℝ) : ℕ → MotoState
  | 0 => ⟨0, 0⟩
  | n+1 => motoStep (inc n) (motoRun inc n)

/-- Membrane potential of retinal unit k after the state-update stage of
the step taken from state s (before threshold and reset): the exact update
with the drive read through the linked variables x_object and x_eye from
the eye state this step's Euler update just produced. -/
noncomputable def retinaNext (xi : ℝ) (s : SimState) (k : Fin Nret) : ℝ :=
  retUpdate (driveI (eyeEuler xi s.eye).xObject (eyeEuler xi s.eye).x (xNeuron k))
    (s.ret k)

/-- One step of the full network, in Brian2 schedule order: state updates
(eye Euler step, exact updates of retina and motoneurons), thresholds
('v>1', for motoneurons only when not refractory), then the event-driven
synapses — every motoneuron spike adds its motosynapse weight to the
eye's x0, and every retinal spike adds its sensorimotor weight to the
potential of its target motoneuron — and finally the resets ('v=0'),
which therefore overwrite any same-step increment on a motoneuron that
fired in this step. -/
noncomputable def simStep (xi : ℝ) (s : SimState) : SimState where
  eye :=
    { eyeEuler xi s.eye with
      x0 := (eyeEuler xi s.eye).x0 +
        ∑ i : Fin 2, if motoFires (s.moto i) then wMoto i else 0 }
  moto := fun i =>
    motoStep
      (∑ k : Fin Nret,
        if 1 < retinaNext xi s k ∧ targetOf k = i then wSensor k else 0)
      (s.moto i)
  ret := fun k =>
    ⟨if 1 < retinaNext xi s k then 0 else retinaNext xi s k, (s.ret k).gs⟩

/-- The initial state of the notebook: every eye variable is 0 (Brian2
default initial values; only retina.v is set, to 'rand()'), motoneurons
start at v = 0 and not refractory, retinal units start at the sampled
v0 k ∈ [0,1) with gs = 0. -/
noncomputable def initState (v0 : Fin Nret → ℝ) : SimState where
  eye := ⟨0, 0, 0, 0, 0⟩
  moto := fun _ => ⟨0, 0⟩
  ret := fun k => ⟨v0 k, 0⟩

/-- The simulated trajectory: state after n steps, given the stream xi of
standard normal draws (xi n drives step n+1) and the initial retinal
potentials v0. -/
noncomputable def sim (xi : ℕ → ℝ) (v0 : Fin Nret → ℝ) : ℕ → SimState
  | 0 => initState v0
  | n+1 => simStep (xi n) (sim xi v0 n)

/- ----------------------------------------------------------------- -/
/- Basic numeric facts.                                               -/
/- ----------------------------------------------------------------- -/

theorem dt_div_taum : dt / taum = 1/200 := by
  norm_num [dt, taum, ms]

theorem decay_eq : decay = Real.exp (-(1/200)) := by
  rw [decay, dt_div_taum]

theorem decay_pos : 0 < decay := Real.exp_pos _

theorem decay_lt_one : decay < 1 := by
  rw [decay_eq]
  apply Real.exp_lt_one_iff.mpr
  norm_num

theorem decay_ge : 199/200 ≤ decay := by
  rw [decay_eq]
  have h := Real.add_one_le_exp (-(1/200))
  linarith

theorem width_eq : width = 1/10 := by
  norm_num [width, Nret]

theorem gain_eq : gain = 4 := rfl

/- ----------------------------------------------------------------- -/
/- Facts about the static connectivity layer.                         -/
/- ----------------------------------------------------------------- -/

theorem wSensorQ_bounds (k : Fin Nret) : 1/19 ≤ wSensorQ k ∧ wSensorQ k ≤ 1 := by
  fin_cases k <;> norm_num [wSensorQ, xNeuronQ, abs, max_def]

theorem wSensor_nonneg (k : Fin Nret) : 0 ≤ wSensor k := by
  rw [wSensor]
  have h := (wSensorQ_bounds k).1
  have : ((1:ℚ)/19 : ℚ) ≤ wSensorQ k := h
  exact_mod_cast le_trans (by norm_num) this

theorem wSensor_le_one (k : Fin Nret) : wSensor k ≤ 1 := by
  rw [wSensor]
  exact_mod_cast (wSensorQ_bounds k).2

/-- C1: the sensorimotor connection setup creates exactly one synapse per
retinal unit k (N = 20 synapses in total, no duplicates or omissions),
each targeting motoneuron int(x_neuron_k > 0) and carrying weight
20*|x_neuron_k|/N with x_neuron_k = -1 + 2k/(N-1).  The weights are fixed
at connection time: the synapse list is a constant of the model (the w
field is declared '(constant)' in the source and nothing ever writes to
it), and the dynamics below only read it. -/
theorem C1_sensorimotor_connectivity :
    sensorimotorSynapses.length = Nret ∧
    (∀ k : Fin Nret,
      (sensorimotorSynapses.filter (fun syn => syn.src = k)).length = 1) ∧
    sensorimotorSynapses =
      (List.finRange Nret).map
        (fun k => ⟨k, if 0 < xNeuronQ k then 1 else 0,
                   20 * |xNeuronQ k| / (Nret : ℚ)⟩) := by
  refine ⟨by simp [sensorimotorSynapses], ?_, rfl⟩
  intro k
  rw [sensorimotorSynapses, List.filter_map]
  simp only [List.length_map, Function.comp]
  have huniq : ∀ j ∈ List.finRange Nret,
      ((fun syn => decide (Synapse.src syn = k)) ∘
        fun j => (⟨j, targetOf j, wSensorQ j⟩ : Synapse)) j =
      (fun j => decide (j = k)) j := by
    intro j _; simp
  rw [List.filter_congr huniq]
  have hc := List.count_eq_one_of_mem (List.nodup_finRange Nret) (List.mem_finRange k)
  simpa [List.count, List.countP_eq_length_filter] using hc

/-- C6: every retinal unit with negative retinotopic position connects to
the left motoneuron (index 0) and every other one to the right motoneuron
(index 1).  No retinal unit sits exactly at position 0 (the grid
-1 + 2k/19 never vanishes), so this description coincides with the source
rule int(x_neuron_pre > 0) on every unit that exists. -/
theorem C6_hemifield_mapping (k : Fin Nret) :
    targetOf k = (if xNeuronQ k < 0 then 0 else 1) ∧ xNeuronQ k ≠ 0 := by
  fin_cases k <;> norm_num [targetOf, xNeuronQ]

/- ----------------------------------------------------------------- -/
/- C2, C7, C9, C10, C8.                                               -/
/- ----------------------------------------------------------------- -/

/-- C2: in every step, the eye's x0 changes by the continuous Euler
relaxation dx0/dt = -x0/tau_muscle plus, for each motoneuron spike of the
step, exactly the motosynapse weight of the spiking motoneuron
(w_0 = -0.5, w_1 = +0.5), applied in the same step, unconditionally, with
no delay; nothing else moves x0 discontinuously (when no motoneuron
fires, the sum is empty and x0 follows the relaxation alone). -/
theorem C2_muscle_coupling (xi : ℝ) (s : SimState) :
    ((simStep xi s).eye.x0 =
      s.eye.x0 + dt * (-s.eye.x0 / tauMuscle) +
        ∑ i : Fin 2, if motoFires (s.moto i) then wMoto i else 0) ∧
    wMoto 0 = -(1/2) ∧ wMoto 1 = 1/2 := by
  refine ⟨rfl, by norm_num [wMoto], by norm_num [wMoto]⟩

/-- C7: with N = 20 the receptive-field width is 2/N = 0.1, and whenever
the alignment x_object - x_eye - x_neuron_k = 0 holds exactly, the drive
I_k equals its maximum gain = 4.0 exactly. -/
theorem C7_aligned_drive_is_gain :
    width = 1/10 ∧ gain = 4 ∧
    ∀ xObj xEye xn : ℝ, xObj - xEye - xn = 0 → driveI xObj xEye xn = gain := by
  refine ⟨width_eq, rfl, ?_⟩
  intro xObj xEye xn h
  rw [driveI, h]
  simp

theorem C7_aligned_drive_is_gain_witness : driveI 1 (1/2) (1/2) = gain :=
  C7_aligned_drive_is_gain.2.2 1 (1/2) (1/2) (by norm_num)

/-- The gs conductance of every retinal unit keeps its initial value 0 at
every step: no synapse of the model targets gs and the state update
leaves it unchanged. -/
theorem gs_sim (xi : ℕ → ℝ) (v0 : Fin Nret → ℝ) (n : ℕ) (k : Fin Nret) :
    ((sim xi v0 n).ret k).gs = 0 := by
  induction n with
  | zero => rfl
  | succ n ih => exact ih

/-- With gs = 0 the exact retinal update is the exact discretisation of
dv/dt = (I - v)/taum. -/
theorem retUpdate_gs_zero (Ik : ℝ) (r : RetState) (h : r.gs = 0) :
    retUpdate Ik r = Ik + (r.v - Ik) * decay := by
  rw [retUpdate, h, retDecay, decay]
  norm_num

/-- C9: the per-unit conductance gs of every retinal unit is never written
by any synapse or other operation and stays at its initial value 0 for the
whole run (the sensorimotor pathway writes only motoneuron v, the
motosynapses write only the eye's x0), so every retinal membrane update is
the one of dv/dt = (I_k - v)/taum. -/
theorem C9_gs_never_written (xi : ℕ → ℝ) (v0 : Fin Nret → ℝ) (n : ℕ)
    (k : Fin Nret) :
    ((sim xi v0 n).ret k).gs = 0 ∧
    ∀ Ik : ℝ, retUpdate Ik ((sim xi v0 n).ret k) =
      Ik + (((sim xi v0 n).ret k).v - Ik) * decay :=
  ⟨gs_sim xi v0 n k, fun Ik => retUpdate_gs_zero Ik _ (gs_sim xi v0 n k)⟩

/-- C10: every sensorimotor weight lies in [1/19, 1] (so in (0, 1]), with
minimum 20*(1/19)/20 = 1/19 and maximum 20*1/20 = 1; since the motoneuron
threshold is the strict test 'v>1', a single retinal spike arriving at a
motoneuron sitting at the reset value v = 0 (whatever its refractory
counter) can never by itself bring it to threshold in the next step. -/
theorem C10_single_spike_subthreshold :
    (∀ k : Fin Nret, 1/19 ≤ wSensorQ k ∧ wSensorQ k ≤ 1) ∧
    ∀ (k : Fin Nret) (r : ℕ), ¬ motoFires (motoStep (wSensor k) ⟨0, r⟩) := by
  refine ⟨wSensorQ_bounds, ?_⟩
  intro k r h
  have hno : ¬(1 < decay * (0:ℝ) ∧ r = 0) := by
    intro hc
    have h0 : decay * (0:ℝ) = 0 := mul_zero decay
    rw [h0] at hc
    exact absurd hc.1 (by norm_num)
  rw [motoStep] at h
  simp only [hno, if_false, if_neg hno] at h
  have h1 : 1 < decay * (decay * 0 + wSensor k) := h.1
  have h2 : decay * wSensor k ≤ 1 :=
    mul_le_one₀ decay_lt_one.le (wSensor_nonneg k) (wSensor_le_one k)
  simp only [mul_zero, zero_add] at h1
  linarith

/-- C8: the embedded simulation is a deterministic function of the random
draws it consumes (the xi stream of the Ornstein-Uhlenbeck noise and the
rand() initial retinal potentials): two runs fed the same draws agree at
every step in full state, in both spike trains (motoneuron and retinal
firing indicators) and in the recorded position traces x, x0, x_object. -/
theorem C8_determinism (xi1 xi2 : ℕ → ℝ) (v1 v2 : Fin Nret → ℝ)
    (hxi : ∀ n, xi1 n = xi2 n) (hv : ∀ k, v1 k = v2 k) (n : ℕ) :
    sim xi1 v1 n = sim xi2 v2 n ∧
    (∀ i, motoFires ((sim xi1 v1 n).moto i) ↔
      motoFires ((sim xi2 v2 n).moto i)) ∧
    (∀ k, 1 < retinaNext (xi1 n) (sim xi1 v1 n) k ↔
      1 < retinaNext (xi2 n) (sim xi2 v2 n) k) ∧
    (sim xi1 v1 n).eye.x = (sim xi2 v2 n).eye.x ∧
    (sim xi1 v1 n).eye.x0 = (sim xi2 v2 n).eye.x0 ∧
    (sim xi1 v1 n).eye.xObject = (sim xi2 v2 n).eye.xObject := by
  have hxe : xi1 = xi2 := funext hxi
  have hve : v1 = v2 := funext hv
  subst hxe hve
  exact ⟨rfl, fun i => Iff.rfl, fun k => Iff.rfl, rfl, rfl, rfl⟩

theorem C8_determinism_witness :
    sim (fun _ => 0) (fun _ => 0) 2 = sim (fun _ => 0) (fun _ => 0) 2 :=
  (C8_determinism (fun _ => 0) (fun _ => 0) (fun _ => 0) (fun _ => 0)
    (fun _ => rfl) (fun _ => rfl) 2).1

/- ----------------------------------------------------------------- -/
/- C4 and C5: refractory behaviour of the motoneurons.                -/
/- ----------------------------------------------------------------- -/

theorem fin19_val : ((19 : Fin Nret) : ℕ) = 19 := rfl

theorem fin18_val : ((18 : Fin Nret) : ℕ) = 18 := rfl

theorem fin17_val : ((17 : Fin Nret) : ℕ) = 17 := rfl

theorem fin16_val : ((16 : Fin Nret) : ℕ) = 16 := rfl

theorem wSensor_19 : wSensor 19 = 1 := by
  rw [wSensor]
  norm_num [wSensorQ, xNeuronQ, abs, max_def, fin19_val]

theorem wSensor_18 : wSensor 18 = 17/19 := by
  rw [wSensor]
  norm_num [wSensorQ, xNeuronQ, abs, max_def, fin18_val]

theorem wSensor_17 : wSensor 17 = 15/19 := by
  rw [wSensor]
  norm_num [wSensorQ, xNeuronQ, abs, max_def, fin17_val]

theorem wSensor_16 : wSensor 16 = 13/19 := by
  rw [wSensor]
  norm_num [wSensorQ, xNeuronQ, abs, max_def, fin16_val]

theorem fin15_val : ((15 : Fin Nret) : ℕ) = 15 := rfl

theorem wSensor_15 : wSensor 15 = 11/19 := by
  rw [wSensor]
  norm_num [wSensorQ, xNeuronQ, abs, max_def, fin15_val]

/-- A concrete admissible sensorimotor input stream for one motoneuron:
spikes of the five distinct right-hemifield retinal units 19, 18, 17, 16,
15 (all of which target motoneuron 1) arriving in five consecutive steps,
then silence. -/
noncomputable def cInc : ℕ → ℝ := fun n =>
  if n = 0 then wSensor 19
  else if n = 1 then wSensor 18
  else if n = 2 then wSensor 17
  else if n = 3 then wSensor 16
  else if n = 4 then wSensor 15
  else 0

theorem cRun1 : motoRun cInc 1 = ⟨1, 0⟩ := by
  show motoStep (cInc 0) ⟨0, 0⟩ = _
  rw [motoStep, if_neg]
  · simp [cInc, wSensor_19]
  · intro hc
    have h0 : decay * (0:ℝ) = 0 := mul_zero decay
    rw [h0] at hc
    exact absurd hc.1 (by norm_num)

theorem cRun2 : motoRun cInc 2 = ⟨decay + 17/19, 0⟩ := by
  show motoStep (cInc 1) (motoRun cInc 1) = _
  rw [cRun1, motoStep, if_neg]
  · simp [cInc, wSensor_18]
  · intro hc
    have := decay_lt_one
    have h1 : decay * (1:ℝ) = decay := mul_one decay
    rw [h1] at hc
    linarith [hc.1]

theorem fire_step3 : 1 < decay * (decay + 17/19) := by
  have h1 : (199/200 : ℝ) ≤ decay := decay_ge
  nlinarith

theorem cRun3 : motoRun cInc 3 = ⟨0, refracSteps⟩ := by
  show motoStep (cInc 2) (motoRun cInc 2) = _
  rw [cRun2, motoStep, if_pos ⟨fire_step3, rfl⟩]

theorem cRun4 : motoRun cInc 4 = ⟨13/19, refracSteps - 1⟩ := by
  show motoStep (cInc 3) (motoRun cInc 3) = _
  rw [cRun3, motoStep, if_neg]
  · simp [cInc, wSensor_16]
  · intro hc
    exact absurd hc.2 (by norm_num [refracSteps])

theorem cRun5 :
    motoRun cInc 5 = ⟨decay * (13/19) + 11/19, refracSteps - 1 - 1⟩ := by
  show motoStep (cInc 4) (motoRun cInc 4) = _
  rw [cRun4, motoStep, if_neg]
  · simp [cInc, wSensor_15]
  · intro hc
    exact absurd hc.2 (by norm_num [refracSteps])

/-- C4, counterexample: in the trajectory driven by cInc the motoneuron
fires in step 3; the reset ends that step at exactly v = 0 (the same-step
spike of unit 17 is overwritten, since the synapses slot runs before the
resets slot), but the weight-13/19 spike of unit 16 delivered in step 4 —
one step into the 5 ms refractory window, whose threshold test is still
suppressed — leaves v = 13/19, not 0: v is not held at 0 and does change
under incoming retinal spikes during the window, contradicting the
claim. -/
theorem C4_counterexample :
    motoFires (motoRun cInc 2) ∧
    (motoRun cInc 3).v = 0 ∧ (motoRun cInc 3).refrac ≠ 0 ∧
    (motoRun cInc 4).refrac ≠ 0 ∧ (motoRun cInc 4).v ≠ 0 ∧
    cInc 3 = wSensor 16 ∧ targetOf 16 = 1 := by
  refine ⟨?_, ?_, ?_, ?_, ?_, ?_, ?_⟩
  · rw [cRun2]
    exact ⟨fire_step3, rfl⟩
  · rw [cRun3]
  · rw [cRun3]
    norm_num [refracSteps]
  · rw [cRun4]
    norm_num [refracSteps]
  · rw [cRun4]
    norm_num
  · simp [cInc]
  · norm_num [targetOf, xNeuronQ, fin16_val]

/-- C4, amended: after each spike the potential is reset to v = 0 (the
reset, which runs after the synapses slot, even overwrites synaptic input
arriving in the firing step itself) and the unit cannot fire again while
its refractory counter is nonzero; but v is not held at 0 during the 5 ms
window: the membrane equation has no "(unless refractory)" flag, so v
keeps decaying, and on_pre statements execute unconditionally, so retinal
spikes arriving in the later steps of the window still increment v. -/
theorem C4_amended (inc : ℝ) (s : MotoState) :
    (motoFires s → motoStep inc s = ⟨0, refracSteps⟩) ∧
    (s.refrac ≠ 0 →
      ¬ motoFires s ∧ motoStep inc s = ⟨decay * s.v + inc, s.refrac - 1⟩) := by
  constructor
  · intro h
    rw [motoFires] at h
    rw [motoStep, if_pos h]
  · intro hr
    refine ⟨fun hf => hr hf.2, ?_⟩
    rw [motoStep, if_neg (fun hc => hr hc.2)]

theorem C4_amended_witness :
    motoStep (1/2) ⟨2, 0⟩ = ⟨0, refracSteps⟩ ∧
    (¬ motoFires ⟨(1:ℝ), 5⟩ ∧
      motoStep (1/2) ⟨(1:ℝ), 5⟩ = ⟨decay * 1 + 1/2, 5 - 1⟩) := by
  constructor
  · refine (C4_amended (1/2) ⟨2, 0⟩).1 ⟨?_, rfl⟩
    show (1:ℝ) < decay * 2
    have := decay_ge
    linarith
  · exact (C4_amended (1/2) ⟨(1:ℝ), 5⟩).2 (by norm_num)

/-- C5, counterexample: the trajectory driven by cInc (five spikes of the
distinct units 19, 18, 17, 16, 15, which all target motoneuron 1, on five
consecutive steps).  The motoneuron fires in step 3 and is reset to 0 (the
same-step spike of unit 17 is overwritten by the reset), then absorbs the
weight-13/19 and weight-11/19 spikes of units 16 and 15 in steps 4 and 5,
inside the refractory window: step 5 ends with v above 1, mid-refractory,
with no threshold crossing and no reset at that instant — so the claimed
bound 0 ≤ v ≤ 1 away from reset instants fails. -/
theorem C5_counterexample :
    1 < (motoRun cInc 5).v ∧ ¬ motoFires (motoRun cInc 5) ∧
    (motoRun cInc 5).refrac ≠ 0 ∧ motoFires (motoRun cInc 2) ∧
    cInc 0 = wSensor 19 ∧ cInc 1 = wSensor 18 ∧ cInc 2 = wSensor 17 ∧
    cInc 3 = wSensor 16 ∧ cInc 4 = wSensor 15 ∧
    targetOf 19 = 1 ∧ targetOf 18 = 1 ∧ targetOf 17 = 1 ∧
    targetOf 16 = 1 ∧ targetOf 15 = 1 := by
  refine ⟨?_, ?_, ?_, ?_, by simp [cInc], by simp [cInc], by simp [cInc],
    by simp [cInc], by simp [cInc],
    by norm_num [targetOf, xNeuronQ, fin19_val],
    by norm_num [targetOf, xNeuronQ, fin18_val],
    by norm_num [targetOf, xNeuronQ, fin17_val],
    by norm_num [targetOf, xNeuronQ, fin16_val],
    by norm_num [targetOf, xNeuronQ, fin15_val]⟩
  · rw [cRun5]
    have h : (199/200 : ℝ) * (13/19) ≤ decay * (13/19) :=
      mul_le_mul_of_nonneg_right decay_ge (by norm_num)
    have h2 : (1:ℝ) < 199/200 * (13/19) + 11/19 := by norm_num
    linarith
  · rw [cRun5]
    intro hf
    exact absurd hf.2 (by norm_num [refracSteps])
  · rw [cRun5]
    norm_num [refracSteps]
  · rw [cRun2]
    exact ⟨fire_step3, rfl⟩

theorem sim_succ (xi : ℕ → ℝ) (v0 : Fin Nret → ℝ) (n : ℕ) :
    sim xi v0 (n+1) = simStep (xi n) (sim xi v0 n) := rfl

theorem simStep_ret (xi : ℝ) (s : SimState) (k : Fin Nret) :
    (simStep xi s).ret k =
      ⟨if 1 < retinaNext xi s k then 0 else retinaNext xi s k,
        (s.ret k).gs⟩ := rfl

theorem simStep_moto (xi : ℝ) (s : SimState) (i : Fin 2) :
    (simStep xi s).moto i =
      motoStep
        (∑ k : Fin Nret,
          if 1 < retinaNext xi s k ∧ targetOf k = i then wSensor k else 0)
        (s.moto i) := rfl

theorem driveI_nonneg (a b c : ℝ) : 0 ≤ driveI a b c := by
  unfold driveI gain
  positivity

theorem retinaNext_gs (xi : ℝ) (s : SimState) (k : Fin Nret)
    (h : (s.ret k).gs = 0) :
    retinaNext xi s k = decay * (s.ret k).v +
      driveI (eyeEuler xi s.eye).xObject (eyeEuler xi s.eye).x (xNeuron k) *
        (1 - decay) := by
  rw [retinaNext, retUpdate_gs_zero _ _ h]
  ring

/-- Retinal potentials stay in [0,1] at every step boundary, provided the
initial rand() values lie there. -/
theorem ret_v_bounds (xi : ℕ → ℝ) (v0 : Fin Nret → ℝ)
    (h : ∀ k, 0 ≤ v0 k ∧ v0 k ≤ 1) (n : ℕ) (k : Fin Nret) :
    0 ≤ ((sim xi v0 n).ret k).v ∧ ((sim xi v0 n).ret k).v ≤ 1 := by
  induction n with
  | zero => exact h k
  | succ n ih =>
    rw [sim_succ, simStep_ret]
    dsimp only
    split_ifs with hf
    · norm_num
    · constructor
      · rw [retinaNext_gs _ _ _ (gs_sim xi v0 n k)]
        have h1 := ih.1
        have h2 := driveI_nonneg (eyeEuler (xi n) (sim xi v0 n).eye).xObject
          (eyeEuler (xi n) (sim xi v0 n).eye).x (xNeuron k)
        have h3 := decay_pos
        have h4 := decay_lt_one
        nlinarith
      · linarith [not_lt.mp hf]

/-- Motoneuron potentials never become negative: the leak decays toward 0
and all sensorimotor weights are nonnegative. -/
theorem moto_v_nonneg (xi : ℕ → ℝ) (v0 : Fin Nret → ℝ) (n : ℕ) (i : Fin 2) :
    0 ≤ ((sim xi v0 n).moto i).v := by
  induction n with
  | zero => exact le_refl 0
  | succ n ih =>
    rw [sim_succ, simStep_moto]
    have hinc : 0 ≤ ∑ k : Fin Nret,
        if 1 < retinaNext (xi n) (sim xi v0 n) k ∧ targetOf k = i
        then wSensor k else 0 := by
      apply Finset.sum_nonneg
      intro k _
      split_ifs
      · exact wSensor_nonneg k
      · exact le_refl 0
    rw [motoStep]
    split_ifs with hf
    · exact le_refl 0
    · exact add_nonneg (mul_nonneg decay_pos.le ih) hinc

/-- A step without synaptic input cannot lift a motoneuron potential above
the threshold bound 1. -/
theorem motoStep_zero_le_one (s : MotoState) (h : s.v ≤ 1) :
    (motoStep 0 s).v ≤ 1 := by
  rw [motoStep]
  split_ifs with hf
  · show (0:ℝ) ≤ 1
    norm_num
  · show decay * s.v + 0 ≤ 1
    rcases le_or_lt 0 s.v with hv | hv
    · have h2 : decay * s.v ≤ 1 * s.v :=
        mul_le_mul_of_nonneg_right decay_lt_one.le hv
      rw [one_mul] at h2
      linarith
    · have h2 : decay * s.v ≤ 0 :=
        mul_nonpos_of_nonneg_of_nonpos decay_pos.le hv.le
      linarith

/-- C5, amended: with the rand() initial values in [0,1], every retinal
potential satisfies 0 ≤ v ≤ 1 at every step boundary (transients above 1
exist only at the threshold-crossing instant inside a step, where the unit
is reset); motoneuron potentials satisfy 0 ≤ v at all times and cannot
exceed 1 through leak alone (a step without synaptic input preserves
v ≤ 1), but — unlike the original claim — they can exceed 1 away from any
reset instant when sensorimotor spikes accumulate, in particular during
the refractory window (see the counterexample). -/
theorem C5_amended (xi : ℕ → ℝ) (v0 : Fin Nret → ℝ)
    (h : ∀ k, 0 ≤ v0 k ∧ v0 k ≤ 1) (n : ℕ) :
    (∀ k, 0 ≤ ((sim xi v0 n).ret k).v ∧ ((sim xi v0 n).ret k).v ≤ 1) ∧
    (∀ i, 0 ≤ ((sim xi v0 n).moto i).v) ∧
    (∀ s : MotoState, s.v ≤ 1 → (motoStep 0 s).v ≤ 1) :=
  ⟨fun k => ret_v_bounds xi v0 h n k, fun i => moto_v_nonneg xi v0 n i,
    fun s hs => motoStep_zero_le_one s hs⟩

theorem C5_amended_witness :
    (0 ≤ ((sim (fun _ => 0) (fun _ => 0) 1).ret 0).v ∧
      ((sim (fun _ => 0) (fun _ => 0) 1).ret 0).v ≤ 1) ∧
    0 ≤ ((sim (fun _ => 0) (fun _ => 0) 1).moto 0).v :=
  ⟨(C5_amended (fun _ => 0) (fun _ => 0)
      (fun _ => ⟨le_refl 0, by norm_num⟩) 1).1 0,
    (C5_amended (fun _ => 0) (fun _ => 0)
      (fun _ => ⟨le_refl 0, by norm_num⟩) 1).2.1 0⟩

/- ----------------------------------------------------------------- -/
/- C3: the zero-noise run.  Numeric groundwork.                       -/
/- ----------------------------------------------------------------- -/

theorem fin9_val : ((9 : Fin Nret) : ℕ) = 9 := rfl

theorem fin10_val : ((10 : Fin Nret) : ℕ) = 10 := rfl

theorem wSensor_9 : wSensor 9 = 1/19 := by
  rw [wSensor]
  norm_num [wSensorQ, xNeuronQ, abs, max_def, fin9_val]

theorem wSensor_10 : wSensor 10 = 1/19 := by
  rw [wSensor]
  norm_num [wSensorQ, xNeuronQ, abs, max_def, fin10_val]

theorem targetOf_9 : targetOf 9 = 0 := by
  norm_num [targetOf, xNeuronQ, fin9_val]

theorem targetOf_10 : targetOf 10 = 1 := by
  norm_num [targetOf, xNeuronQ, fin10_val]

theorem decay_pow_eq (n : ℕ) : decay^n = Real.exp (-(n/200 : ℝ)) := by
  rw [decay_eq, ← Real.exp_nat_mul]
  congr 1
  ring

theorem decay_pow64_le : decay^64 ≤ 25/33 := by
  have heq : decay^64 = Real.exp (-(8/25 : ℝ)) := by
    rw [decay_pow_eq]
    norm_num
  rw [heq]
  have h : (33/25 : ℝ) ≤ Real.exp (8/25 : ℝ) := by
    have := Real.add_one_le_exp (8/25 : ℝ)
    linarith
  have h3 : (Real.exp (8/25 : ℝ))⁻¹ ≤ (33/25 : ℝ)⁻¹ :=
    inv_anti₀ (by norm_num) h
  rw [Real.exp_neg]
  norm_num at h3 ⊢
  linarith

theorem decay_pow63_ge : 983/1444 ≤ decay^63 := by
  have heq : decay^63 = Real.exp (-(63/200 : ℝ)) := by
    rw [decay_pow_eq]
    norm_num
  rw [heq]
  have := Real.add_one_le_exp (-(63/200 : ℝ))
  linarith

/-- Imax is a rational upper bound on the drive of the two central retinal
units (9 and 10) when the eye and the object both sit at 0:
4*exp(-100/361) ≤ 4*361/461 = 1444/461. -/
noncomputable def Imax : ℝ := 1444/461

/-- Mb = (1/19)/(1 - 25/33) = 33/152 < 1 is the geometric-series bound on
a motoneuron potential fed one weight-1/19 spike at most every 64 steps. -/
noncomputable def Mb : ℝ := 33/152

theorem Mb_pos : 0 < Mb := by norm_num [Mb]

theorem Mb_lt_one : Mb < 1 := by norm_num [Mb]

theorem Imax_gt_one : 1 < Imax := by norm_num [Imax]

theorem driveI_zero_eq (xn : ℝ) :
    driveI 0 0 xn = gain * Real.exp (-((xn/width)^2)) := by
  rw [driveI, show (0:ℝ) - 0 - xn = -xn by ring, neg_div, neg_sq]

theorem xNeuron_div_width (k : Fin Nret) :
    xNeuron k / width = ((xNeuronQ k * 10 : ℚ) : ℝ) := by
  rw [xNeuron_eq_cast, width_eq]
  push_cast
  ring

/-- Any retinal unit whose squared scaled eccentricity is at least 900/361
(all units other than 9 and 10, at zero eye and object) has drive at most
the firing threshold 1: 4*exp(-900/361) < 1 because
exp(900/361) ≥ (1 + 450/361)^2 = (811/361)^2 > 4. -/
theorem drive_le_one_of_sq (xn : ℝ) (h : 900/361 ≤ (xn/width)^2) :
    driveI 0 0 xn ≤ 1 := by
  rw [driveI_zero_eq, gain]
  have hmono : Real.exp (-((xn/width)^2)) ≤ Real.exp (-(900/361 : ℝ)) :=
    Real.exp_le_exp.mpr (by linarith)
  have hsplit : Real.exp (900/361 : ℝ) =
      Real.exp (450/361 : ℝ) * Real.exp (450/361 : ℝ) := by
    rw [← Real.exp_add]
    norm_num
  have hlin : (811/361 : ℝ) ≤ Real.exp (450/361 : ℝ) := by
    have := Real.add_one_le_exp (450/361 : ℝ)
    linarith
  have hbig : (4:ℝ) ≤ Real.exp (900/361 : ℝ) := by
    rw [hsplit]
    nlinarith [Real.exp_pos (450/361 : ℝ)]
  have hquarter : Real.exp (-(900/361 : ℝ)) ≤ 4⁻¹ := by
    rw [Real.exp_neg]
    exact inv_anti₀ (by norm_num) hbig
  norm_num at hquarter
  linarith

theorem drive_le_Imax_of_sq (xn : ℝ) (h : (xn/width)^2 = 100/361) :
    driveI 0 0 xn ≤ Imax := by
  rw [driveI_zero_eq, gain, h, Imax]
  have h1 : (461/361 : ℝ) ≤ Real.exp (100/361 : ℝ) := by
    have := Real.add_one_le_exp (100/361 : ℝ)
    linarith
  have h2 : Real.exp (-(100/361 : ℝ)) ≤ (461/361 : ℝ)⁻¹ := by
    rw [Real.exp_neg]
    exact inv_anti₀ (by norm_num) h1
  norm_num at h2
  linarith

theorem sq_9 : (xNeuron 9 / width)^2 = 100/361 := by
  rw [xNeuron_div_width]
  have hq : xNeuronQ 9 = -1/19 := by norm_num [xNeuronQ, fin9_val]
  rw [hq]
  push_cast
  norm_num

theorem sq_10 : (xNeuron 10 / width)^2 = 100/361 := by
  rw [xNeuron_div_width]
  have hq : xNeuronQ 10 = 1/19 := by norm_num [xNeuronQ, fin10_val]
  rw [hq]
  push_cast
  norm_num

theorem drive9_le_Imax : driveI 0 0 (xNeuron 9) ≤ Imax :=
  drive_le_Imax_of_sq _ sq_9

theorem drive10_le_Imax : driveI 0 0 (xNeuron 10) ≤ Imax :=
  drive_le_Imax_of_sq _ sq_10

theorem sq_small (k : Fin Nret) (h9 : k ≠ 9) (h10 : k ≠ 10) :
    900/361 ≤ (xNeuron k / width)^2 := by
  have hQ : ∀ j : Fin Nret,
      j = 9 ∨ j = 10 ∨ (900/361 : ℚ) ≤ (xNeuronQ j * 10)^2 := by
    intro j
    fin_cases j <;>
      first
        | exact Or.inl (by decide)
        | exact Or.inr (Or.inl (by decide))
        | exact Or.inr (Or.inr (by norm_num [xNeuronQ]))
  rcases hQ k with h | h | h
  · exact absurd h h9
  · exact absurd h h10
  · rw [xNeuron_div_width]
    have h2 : ((900/361 : ℚ) : ℝ) ≤ (((xNeuronQ k * 10)^2 : ℚ) : ℝ) := by
      exact_mod_cast h
    push_cast at h2 ⊢
    linarith

theorem drive_small_le_one (k : Fin Nret) (h9 : k ≠ 9) (h10 : k ≠ 10) :
    driveI 0 0 (xNeuron k) ≤ 1 :=
  drive_le_one_of_sq _ (sq_small k h9 h10)

/- ----------------------------------------------------------------- -/
/- C3: the invariant of the zero-noise run.                           -/
/- ----------------------------------------------------------------- -/

/-- The all-zero eye state (Brian2 default initial values). -/
noncomputable def eyeZero : EyeState := ⟨0, 0, 0, 0, 0⟩

theorem eyeEuler_zero : eyeEuler 0 eyeZero = eyeZero := by
  simp [eyeEuler, eyeZero]

/-- Invariant of the zero-noise, zero-initial-potential run: the eye state
stays identically zero, gs stays 0, retinal units other than the two
central ones (9 and 10) stay at or below threshold, no motoneuron is
refractory, and each central unit / motoneuron pair satisfies a
phase-indexed bound: some number a of steps after the central unit's last
reset, its potential is at most Imax*(1-decay^a) (the charging curve under
a drive of at most Imax), and its target motoneuron's potential is at most
Mb*decay^a (the geometric bound on spikes of weight 1/19 arriving at least
64 steps apart). -/
def C3Inv (s : SimState) : Prop :=
  s.eye = eyeZero ∧
  (∀ k : Fin Nret, (s.ret k).gs = 0) ∧
  (∀ k : Fin Nret, k ≠ 9 → k ≠ 10 → (s.ret k).v ≤ 1) ∧
  (∀ i : Fin 2, (s.moto i).refrac = 0) ∧
  (∃ a : ℕ, (s.ret 9).v ≤ Imax * (1 - decay^a) ∧
    (s.moto 0).v ≤ Mb * decay^a) ∧
  (∃ b : ℕ, (s.ret 10).v ≤ Imax * (1 - decay^b) ∧
    (s.moto 1).v ≤ Mb * decay^b)

theorem C3Inv_nofire (s : SimState) (h : C3Inv s) (i : Fin 2) :
    ¬ motoFires (s.moto i) := by
  obtain ⟨-, -, -, -, ⟨a, -, hma⟩, ⟨b, -, hmb⟩⟩ := h
  intro hf
  have hpow : ∀ c : ℕ, Mb * decay^c ≤ Mb := fun c =>
    mul_le_of_le_one_right Mb_pos.le
      (pow_le_one₀ decay_pos.le decay_lt_one.le)
  have hv : (s.moto i).v ≤ Mb := by
    fin_cases i
    · exact le_trans hma (hpow a)
    · exact le_trans hmb (hpow b)
  have h1 : decay * (s.moto i).v ≤ decay * Mb :=
    mul_le_mul_of_nonneg_left hv decay_pos.le
  have h2 : decay * Mb ≤ 1 * Mb :=
    mul_le_mul_of_nonneg_right decay_lt_one.le Mb_pos.le
  have := hf.1
  have := Mb_lt_one
  linarith

/-- If only the designated unit among those targeting motoneuron i can be
above threshold, the summed sensorimotor input of the step collapses to
that unit's term. -/
theorem inc_eval (xi : ℝ) (s : SimState) (i : Fin 2) (k₀ : Fin Nret)
    (htgt : targetOf k₀ = i)
    (hothers : ∀ k : Fin Nret, k ≠ k₀ → targetOf k = i →
      ¬ (1 < retinaNext xi s k)) :
    (∑ k : Fin Nret,
      if 1 < retinaNext xi s k ∧ targetOf k = i then wSensor k else 0)
      = if 1 < retinaNext xi s k₀ then wSensor k₀ else 0 := by
  rw [Finset.sum_eq_single k₀]
  · simp [htgt]
  · intro k _ hk
    by_cases ht : targetOf k = i
    · exact if_neg (fun hc => hothers k hk ht hc.1)
    · exact if_neg (fun hc => ht hc.2)
  · intro habs
    exact absurd (Finset.mem_univ k₀) habs

/-- One step of the phase-indexed bound for a central unit k₀ and its
target motoneuron i: either the unit stays below threshold (the phase
advances), or it fires, in which case the phase was at least 63, so the
motoneuron, which has decayed through at least 64 steps since the last
such spike, absorbs the weight-1/19 increment without leaving [0, Mb]. -/
theorem sideInv_step (s : SimState) (k₀ : Fin Nret) (i : Fin 2) (a : ℕ)
    (hrn9 : retinaNext 0 s k₀ =
      decay * (s.ret k₀).v + driveI 0 0 (xNeuron k₀) * (1 - decay))
    (hI : driveI 0 0 (xNeuron k₀) ≤ Imax)
    (hw : wSensor k₀ = 1/19)
    (hinc : (∑ k : Fin Nret,
        if 1 < retinaNext 0 s k ∧ targetOf k = i then wSensor k else 0)
      = if 1 < retinaNext 0 s k₀ then wSensor k₀ else 0)
    (hnofi : ¬ motoFires (s.moto i))
    (hra : (s.ret k₀).v ≤ Imax * (1 - decay^a))
    (hma : (s.moto i).v ≤ Mb * decay^a) :
    ∃ c : ℕ, ((simStep 0 s).ret k₀).v ≤ Imax * (1 - decay^c) ∧
      ((simStep 0 s).moto i).v ≤ Mb * decay^c := by
  have hIpos := driveI_nonneg 0 0 (xNeuron k₀)
  have hb : retinaNext 0 s k₀ ≤ Imax * (1 - decay^(a+1)) := by
    rw [hrn9]
    have e1 : decay * (s.ret k₀).v ≤ decay * (Imax * (1 - decay^a)) :=
      mul_le_mul_of_nonneg_left hra decay_pos.le
    have e2 : driveI 0 0 (xNeuron k₀) * (1-decay) ≤ Imax * (1-decay) :=
      mul_le_mul_of_nonneg_right hI (by linarith [decay_lt_one])
    have e3 : decay * (Imax * (1 - decay^a)) + Imax * (1-decay)
        = Imax * (1 - decay^(a+1)) := by
      rw [pow_succ]
      ring
    linarith
  have hnf : ¬(1 < decay * (s.moto i).v ∧ (s.moto i).refrac = 0) := hnofi
  have hmotoStep : ((simStep 0 s).moto i).v
      = decay * (s.moto i).v +
        (if 1 < retinaNext 0 s k₀ then wSensor k₀ else 0) := by
    rw [simStep_moto, hinc, motoStep, if_neg hnf]
  have hret : ((simStep 0 s).ret k₀).v
      = if 1 < retinaNext 0 s k₀ then 0 else retinaNext 0 s k₀ := by
    rw [simStep_ret]
  by_cases hf : 1 < retinaNext 0 s k₀
  · have h1 : 1 < Imax * (1 - decay^(a+1)) := lt_of_lt_of_le hf hb
    have h2 : decay^(a+1) < 983/1444 := by
      rw [Imax] at h1
      linarith
    have h64 : 64 ≤ a + 1 := by
      by_contra hcon
      push_neg at hcon
      have hle : decay^63 ≤ decay^(a+1) :=
        pow_le_pow_of_le_one decay_pos.le decay_lt_one.le (by omega)
      linarith [decay_pow63_ge]
    refine ⟨0, ?_, ?_⟩
    · rw [hret, if_pos hf, pow_zero]
      norm_num
    · rw [hmotoStep, if_pos hf, hw, pow_zero, mul_one]
      have e1 : decay * (s.moto i).v ≤ decay * (Mb * decay^a) :=
        mul_le_mul_of_nonneg_left hma decay_pos.le
      have e2 : decay * (Mb * decay^a) = Mb * decay^(a+1) := by
        rw [pow_succ]
        ring
      have e3 : decay^(a+1) ≤ decay^64 :=
        pow_le_pow_of_le_one decay_pos.le decay_lt_one.le h64
      have e4 : Mb * decay^(a+1) ≤ Mb * decay^64 :=
        mul_le_mul_of_nonneg_left e3 Mb_pos.le
      have e5 : Mb * decay^64 ≤ Mb * (25/33) :=
        mul_le_mul_of_nonneg_left decay_pow64_le Mb_pos.le
      have e6 : Mb * (25/33) + 1/19 = Mb := by
        rw [Mb]
        norm_num
      linarith
  · refine ⟨a+1, ?_, ?_⟩
    · rw [hret, if_neg hf]
      exact hb
    · rw [hmotoStep, if_neg hf, add_zero]
      have e1 : decay * (s.moto i).v ≤ decay * (Mb * decay^a) :=
        mul_le_mul_of_nonneg_left hma decay_pos.le
      have e2 : decay * (Mb * decay^a) = Mb * decay^(a+1) := by
        rw [pow_succ]
        ring
      linarith

theorem C3Inv_step (s : SimState) (h : C3Inv s) : C3Inv (simStep 0 s) := by
  obtain ⟨heye, hgs, hsmall, hrefrac, ⟨a, hra, hma⟩, ⟨b, hrb, hmb⟩⟩ := h
  have hnof : ∀ i : Fin 2, ¬ motoFires (s.moto i) :=
    C3Inv_nofire s ⟨heye, hgs, hsmall, hrefrac, ⟨a, hra, hma⟩, ⟨b, hrb, hmb⟩⟩
  have hrn : ∀ k : Fin Nret, retinaNext 0 s k =
      decay * (s.ret k).v + driveI 0 0 (xNeuron k) * (1 - decay) := by
    intro k
    rw [retinaNext_gs 0 s k (hgs k), heye, eyeEuler_zero]
    rfl
  have hsmallN : ∀ k : Fin Nret, k ≠ 9 → k ≠ 10 → retinaNext 0 s k ≤ 1 := by
    intro k h9 h10
    rw [hrn k]
    have hI := drive_small_le_one k h9 h10
    have hv := hsmall k h9 h10
    have e1 : decay * (s.ret k).v ≤ decay * 1 :=
      mul_le_mul_of_nonneg_left hv decay_pos.le
    have e2 : driveI 0 0 (xNeuron k) * (1 - decay) ≤ 1 * (1 - decay) :=
      mul_le_mul_of_nonneg_right hI (by linarith [decay_lt_one])
    linarith
  have hoth0 : ∀ k : Fin Nret, k ≠ 9 → targetOf k = 0 →
      ¬ (1 < retinaNext 0 s k) := by
    intro k hk ht
    have hk10 : k ≠ 10 := by
      intro he
      rw [he, targetOf_10] at ht
      exact absurd ht (by decide)
    exact not_lt.mpr (hsmallN k hk hk10)
  have hoth1 : ∀ k : Fin Nret, k ≠ 10 → targetOf k = 1 →
      ¬ (1 < retinaNext 0 s k) := by
    intro k hk ht
    have hk9 : k ≠ 9 := by
      intro he
      rw [he, targetOf_9] at ht
      exact absurd ht (by decide)
    exact not_lt.mpr (hsmallN k hk9 hk)
  refine ⟨?_, ?_, ?_, ?_, ?_, ?_⟩
  · have hsum0 :
        (∑ i : Fin 2, if motoFires (s.moto i) then wMoto i else 0) = 0 :=
      Finset.sum_eq_zero (fun i _ => if_neg (hnof i))
    show ({ eyeEuler 0 s.eye with
      x0 := (eyeEuler 0 s.eye).x0 +
        ∑ i : Fin 2, if motoFires (s.moto i) then wMoto i else 0 } :
          EyeState) = eyeZero
    rw [heye, eyeEuler_zero, hsum0]
    show ({ eyeZero with x0 := eyeZero.x0 + 0 } : EyeState) = eyeZero
    norm_num [eyeZero]
  · intro k
    rw [simStep_ret]
    exact hgs k
  · intro k h9 h10
    rw [simStep_ret]
    dsimp only
    split_ifs with hf
    · norm_num
    · exact hsmallN k h9 h10
  · intro i
    have hnf : ¬(1 < decay * (s.moto i).v ∧ (s.moto i).refrac = 0) := hnof i
    rw [simStep_moto, motoStep, if_neg hnf]
    show (s.moto i).refrac - 1 = 0
    rw [hrefrac i]
  · exact sideInv_step s 9 0 a (hrn 9) drive9_le_Imax wSensor_9
      (inc_eval 0 s 0 9 targetOf_9 hoth0) (hnof 0) hra hma
  · exact sideInv_step s 10 1 b (hrn 10) drive10_le_Imax wSensor_10
      (inc_eval 0 s 1 10 targetOf_10 hoth1) (hnof 1) hrb hmb

theorem C3Inv_init : C3Inv (initState (fun _ => 0)) := by
  refine ⟨rfl, fun k => rfl, fun k h9 h10 => ?_, fun i => rfl,
    ⟨0, ?_, ?_⟩, ⟨0, ?_, ?_⟩⟩
  · show (0:ℝ) ≤ 1
    norm_num
  · show (0:ℝ) ≤ Imax * (1 - decay^0)
    rw [pow_zero]
    norm_num
  · show (0:ℝ) ≤ Mb * decay^0
    rw [pow_zero, mul_one]
    exact Mb_pos.le
  · show (0:ℝ) ≤ Imax * (1 - decay^0)
    rw [pow_zero]
    norm_num
  · show (0:ℝ) ≤ Mb * decay^0
    rw [pow_zero, mul_one]
    exact Mb_pos.le

/-- C3: in the run with the stochastic drive fixed to 0 (xi ≡ 0) and all
spiking-unit potentials started at v = 0 (and the eye group at its
all-zero default initial state), x_object equals 0 at every step of the
run, and no motoneuron ever fires.  (The two central retinal units still
charge up and spike under their Gaussian drive, but their weight-1/19
spikes arrive at least 6.4 ms apart and can never accumulate a motoneuron
potential beyond 33/152 < 1.) -/
theorem C3_zero_noise_run (n : ℕ) :
    (sim (fun _ => 0) (fun _ => 0) n).eye.xObject = 0 ∧
    ∀ i : Fin 2, ¬ motoFires ((sim (fun _ => 0) (fun _ => 0) n).moto i) := by
  have hInv : ∀ m : ℕ, C3Inv (sim (fun _ => 0) (fun _ => 0) m) := by
    intro m
    induction m with
    | zero => exact C3Inv_init
    | succ m ih =>
      rw [sim_succ]
      exact C3Inv_step _ ih
  refine ⟨?_, fun i => C3Inv_nofire _ (hInv n) i⟩
  rw [(hInv n).1]
  rfl
